import Mathlib

/-!
Verification of the SMHI weather-station client (`src/weather.py`).

The Python module is embedded shallowly:

* `WeatherSymbol` / `PCAT` model the two enumerations together with their
  lookup-by-code class methods (`WeatherSymbol.from_code`, the `PCAT(...)`
  enum constructor).
* `date_str_to_datetime` models `datetime.strptime(s, "%Y-%m-%dT%H:%M:%SZ")`
  followed by `.replace(tzinfo=pytz.UTC)`.  CPython's `_strptime` compiles
  the format to the regex
  `(\d\d\d\d)-(1[0-2]|0[1-9]|[1-9])-(3[01]|[12]\d|0[1-9]|[1-9])T` +
  `(2[0-3]|[0-1]\d|\d):([0-5]\d|\d):(6[0-1]|[0-5]\d|\d)Z` with
  `re.IGNORECASE` — so the literals `T` and `Z` also match `t` and `z` —
  and with Unicode semantics for `\d`, which matches every decimal digit
  (category Nd: the runs listed in `ndStarts`), while the explicit
  character ranges such as `[0-5]` stay ASCII; `int()` converts any mix of
  decimal-digit scripts positionally by digit value.  The match must
  consume the whole input ("unconverted data remains" otherwise), and the
  resulting `datetime(...)` constructor call validates the calendar date
  and rejects seconds 60/61.  Strings are modelled by their lists of code
  points.
* `SMHI_timeSeries_object_to_WeatherDataEntry` models the per-timestep
  decoder with its exact evaluation order; each distinct Python raise site
  is a distinct `WError` constructor (`ValueError` from `strptime` ↦
  `formatError`, `ValueError` from the enum lookups ↦ `unknownCode`,
  `TypeError` from subscripting `None` ↦ `missingField`, `IndexError`
  from `values[0]` ↦ `indexError`, `KeyError` ↦ `keyError`,
  `ValueError` from `min([])` ↦ `emptyStore`).
* `SMHIHelper` models the store; its Python `dict` is an association list
  with `dictInsert` (overwrite first matching key, else append) and
  `dictGet` (first matching key), which is exactly the observable
  behaviour of an insertion-ordered dict.  The network and JSON layers are
  abstracted: `SMHIHelper.fetch` receives the decoded `timeSeries` array.
-/

/-- Python exception kinds raised by the module, one constructor per raise
site, named following the specification's error taxonomy. -/

inductive WError where
  | formatError
  | unknownCode
  | missingField
  | indexError
  | keyError
  | emptyStore
deriving DecidableEq, Repr

/-- A `datetime.datetime` value as produced by this module (always UTC). -/

structure PyDateTime where
  year : Nat
  month : Nat
  day : Nat
  hour : Nat
  minute : Nat
  second : Nat
deriving DecidableEq, Repr

/-- A `datetime.date` value. -/

structure PyDate where
  year : Nat
  month : Nat
  day : Nat
deriving DecidableEq, Repr

/-- `datetime.date()`: the calendar-date component. -/

def PyDateTime.date (t : PyDateTime) : PyDate :=
  ⟨t.year, t.month, t.day⟩

/-- Python `datetime <= datetime`: lexicographic comparison of the fields. -/

def dtle (a b : PyDateTime) : Prop :=
  a.year < b.year ∨ a.year = b.year ∧
    (a.month < b.month ∨ a.month = b.month ∧
      (a.day < b.day ∨ a.day = b.day ∧
        (a.hour < b.hour ∨ a.hour = b.hour ∧
          (a.minute < b.minute ∨ a.minute = b.minute ∧
            a.second ≤ b.second))))

/-- Python `datetime < datetime`. -/

def dtlt (a b : PyDateTime) : Prop :=
  a.year < b.year ∨ a.year = b.year ∧
    (a.month < b.month ∨ a.month = b.month ∧
      (a.day < b.day ∨ a.day = b.day ∧
        (a.hour < b.hour ∨ a.hour = b.hour ∧
          (a.minute < b.minute ∨ a.minute = b.minute ∧
            a.second < b.second))))

instance : DecidableRel dtle := fun a b => by
  unfold dtle; infer_instance

instance : DecidableRel dtlt := fun a b => by
  unfold dtlt; infer_instance

/-- Python `date <= date`: lexicographic. -/

def dateLe (a b : PyDate) : Prop :=
  a.year < b.year ∨ a.year = b.year ∧
    (a.month < b.month ∨ a.month = b.month ∧ a.day ≤ b.day)

/-- Python `date < date`: lexicographic. -/

def dateLt (a b : PyDate) : Prop :=
  a.year < b.year ∨ a.year = b.year ∧
    (a.month < b.month ∨ a.month = b.month ∧ a.day < b.day)

instance : DecidableRel dateLe := fun a b => by
  unfold dateLe; infer_instance

instance : DecidableRel dateLt := fun a b => by
  unfold dateLt; infer_instance

instance : IsTotal PyDateTime dtle :=
  ⟨fun a b => by unfold dtle; omega⟩

instance : IsTrans PyDateTime dtle :=
  ⟨fun a b c h1 h2 => by unfold dtle at *; omega⟩

/-- Association-list model of a Python `dict`: `m[k] = v` overwrites the
first binding of `k` in place, otherwise appends a new binding. -/

def dictInsert {α β : Type} [DecidableEq α] (m : List (α × β)) (k : α) (v : β) :
    List (α × β) :=
  match m with
  | [] => [(k, v)]
  | (k0, v0) :: rest =>
    if k0 = k then (k, v) :: rest else (k0, v0) :: dictInsert rest k v

/-- Association-list model of Python `dict` lookup (`m.get(k)` / `m[k]`):
the first binding of `k`, if any. -/

def dictGet {α β : Type} [DecidableEq α] (m : List (α × β)) (k : α) : Option β :=
  match m with
  | [] => none
  | (k0, v0) :: rest => if k0 = k then some v0 else dictGet rest k

instance {ε α : Type} [DecidableEq ε] [DecidableEq α] : DecidableEq (Except ε α) :=
  fun a b =>
  match a, b with
  | .error e1, .error e2 =>
    if h : e1 = e2 then .isTrue (by rw [h]) else .isFalse (fun hh => by cases hh; exact h rfl)
  | .error _, .ok _ => .isFalse (fun hh => by cases hh)
  | .ok _, .error _ => .isFalse (fun hh => by cases hh)
  | .ok x, .ok y =>
    if h : x = y then .isTrue (by rw [h]) else .isFalse (fun hh => by cases hh; exact h rfl)

/-- The `WeatherSymbol` enumeration: 27 variants, each carrying a numeric
code and a display glyph (`weather.py` lines 10–41). -/

inductive WeatherSymbol where
  | CLEAR_SKY
  | NEARLY_CLEAR_SKY
  | VARIABLE_CLOUDINESS
  | HALFCLEAR_SKY
  | CLOUDY_SKY
  | OVERCAST
  | FOG
  | LIGHT_RAIN_SHOWERS
  | MODERATE_RAIN_SHOWERS
  | HEAVY_RAIN_SHOWERS
  | THUNDERSTORM
  | LIGHT_SLEET_SHOWERS
  | MODERATE_SLEET_SHOWERS
  | HEAVY_SLEET_SHOWERS
  | LIGHT_SNOW_SHOWERS
  | MODERATE_SNOW_SHOWERS
  | HEAVY_SNOW_SHOWERS
  | LIGHT_RAIN
  | MODERATE_RAIN
  | HEAVY_RAIN
  | THUNDER
  | LIGHT_SLEET
  | MODERATE_SLEET
  | HEAVY_SLEET
  | LIGHT_SNOWFALL
  | MODERATE_SNOWFALL
  | HEAVY_SNOWFALL
deriving DecidableEq, Repr

/-- The numeric code attached to each `WeatherSymbol` variant. -/

def WeatherSymbol.code : WeatherSymbol → Int
  | .CLEAR_SKY => 1
  | .NEARLY_CLEAR_SKY => 2
  | .VARIABLE_CLOUDINESS => 3
  | .HALFCLEAR_SKY => 4
  | .CLOUDY_SKY => 5
  | .OVERCAST => 6
  | .FOG => 7
  | .LIGHT_RAIN_SHOWERS => 8
  | .MODERATE_RAIN_SHOWERS => 9
  | .HEAVY_RAIN_SHOWERS => 10
  | .THUNDERSTORM => 11
  | .LIGHT_SLEET_SHOWERS => 12
  | .MODERATE_SLEET_SHOWERS => 13
  | .HEAVY_SLEET_SHOWERS => 14
  | .LIGHT_SNOW_SHOWERS => 15
  | .MODERATE_SNOW_SHOWERS => 16
  | .HEAVY_SNOW_SHOWERS => 17
  | .LIGHT_RAIN => 18
  | .MODERATE_RAIN => 19
  | .HEAVY_RAIN => 20
  | .THUNDER => 21
  | .LIGHT_SLEET => 22
  | .MODERATE_SLEET => 23
  | .HEAVY_SLEET => 24
  | .LIGHT_SNOWFALL => 25
  | .MODERATE_SNOWFALL => 26
  | .HEAVY_SNOWFALL => 27

/-- The display glyph attached to each `WeatherSymbol` variant. -/

def WeatherSymbol.icon : WeatherSymbol → String
  | .CLEAR_SKY => "☀️"
  | .NEARLY_CLEAR_SKY => "🌤️"
  | .VARIABLE_CLOUDINESS => "⛅"
  | .HALFCLEAR_SKY => "🌥️"
  | .CLOUDY_SKY => "☁️"
  | .OVERCAST => "🌧️"
  | .FOG => "🌫️"
  | .LIGHT_RAIN_SHOWERS => "🌦️"
  | .MODERATE_RAIN_SHOWERS => "🌧️"
  | .HEAVY_RAIN_SHOWERS => "🌧️🌧️"
  | .THUNDERSTORM => "⛈️"
  | .LIGHT_SLEET_SHOWERS => "🌨️"
  | .MODERATE_SLEET_SHOWERS => "🌨️🌨️"
  | .HEAVY_SLEET_SHOWERS => "🌨️🌨️🌨️"
  | .LIGHT_SNOW_SHOWERS => "🌨️"
  | .MODERATE_SNOW_SHOWERS => "🌨️🌨️"
  | .HEAVY_SNOW_SHOWERS => "🌨️🌨️🌨️"
  | .LIGHT_RAIN => "🌧️"
  | .MODERATE_RAIN => "🌧️🌧️"
  | .HEAVY_RAIN => "🌧️🌧️🌧️"
  | .THUNDER => "⚡"
  | .LIGHT_SLEET => "🌨️"
  | .MODERATE_SLEET => "🌨️🌨️"
  | .HEAVY_SLEET => "🌨️🌨️🌨️"
  | .LIGHT_SNOWFALL => "❄️"
  | .MODERATE_SNOWFALL => "❄️❄️"
  | .HEAVY_SNOWFALL => "❄️❄️❄️"

/-- The members of `WeatherSymbol` in declaration order (Python's
`for symbol in cls` iteration order). -/

def WeatherSymbol.members : List WeatherSymbol :=
  [.CLEAR_SKY, .NEARLY_CLEAR_SKY, .VARIABLE_CLOUDINESS, .HALFCLEAR_SKY,
   .CLOUDY_SKY, .OVERCAST, .FOG, .LIGHT_RAIN_SHOWERS, .MODERATE_RAIN_SHOWERS,
   .HEAVY_RAIN_SHOWERS, .THUNDERSTORM, .LIGHT_SLEET_SHOWERS,
   .MODERATE_SLEET_SHOWERS, .HEAVY_SLEET_SHOWERS, .LIGHT_SNOW_SHOWERS,
   .MODERATE_SNOW_SHOWERS, .HEAVY_SNOW_SHOWERS, .LIGHT_RAIN, .MODERATE_RAIN,
   .HEAVY_RAIN, .THUNDER, .LIGHT_SLEET, .MODERATE_SLEET, .HEAVY_SLEET,
   .LIGHT_SNOWFALL, .MODERATE_SNOWFALL, .HEAVY_SNOWFALL]

/-- `WeatherSymbol.from_code`: linear scan of the members for a matching
code; raises `ValueError` (`unknownCode`) when none matches. -/

def WeatherSymbol.from_code (code : Int) : Except WError WeatherSymbol :=
  match WeatherSymbol.members.find? (fun s => s.code == code) with
  | some s => .ok s
  | none => .error .unknownCode

/-- The `PCAT` enumeration (precipitation category), codes 0–6. -/

inductive PCAT where
  | NO_PRECIPITATION
  | SNOW
  | SNOW_AND_RAIN
  | RAIN
  | DRIZZLE
  | FREEZING_RAIN
  | FREEZING_DRIZZLE
deriving DecidableEq, Repr

/-- The integer value of each `PCAT` member. -/

def PCAT.val : PCAT → Int
  | .NO_PRECIPITATION => 0
  | .SNOW => 1
  | .SNOW_AND_RAIN => 2
  | .RAIN => 3
  | .DRIZZLE => 4
  | .FREEZING_RAIN => 5
  | .FREEZING_DRIZZLE => 6

/-- The members of `PCAT` in declaration order. -/

def PCAT.members : List PCAT :=
  [.NO_PRECIPITATION, .SNOW, .SNOW_AND_RAIN, .RAIN, .DRIZZLE,
   .FREEZING_RAIN, .FREEZING_DRIZZLE]

/-- The `PCAT(value)` enum constructor: lookup by value; raises
`ValueError` (`unknownCode`) when no member has that value. -/

def PCAT.fromValue (v : Int) : Except WError PCAT :=
  match PCAT.members.find? (fun p => p.val == v) with
  | some p => .ok p
  | none => .error .unknownCode

/-- The zero-digit code point of every run of Unicode decimal digits
(category Nd).  The set matched by the regex class `\d` under CPython's
default Unicode flag is exactly the union of the runs `[s, s + 9]` for
`s` in this table, each character carrying the digit value of its offset
in the run; `int()` converts exactly these characters, by those values.
Table taken from the Unicode database of the CPython build the module
runs on. -/

def ndStarts : List Nat :=
  [48, 1632, 1776, 1984, 2406, 2534, 2662, 2790, 2918, 3046, 3174, 3302,
   3430, 3558, 3664, 3792, 3872, 4160, 4240, 6112, 6160, 6470, 6608, 6784,
   6800, 6992, 7088, 7232, 7248, 42528, 43216, 43264, 43472, 43504, 43600,
   44016, 65296, 66720, 68912, 69734, 69872, 69942, 70096, 70384, 70736,
   70864, 71248, 71360, 71472, 71904, 72016, 72784, 73040, 73120, 92768,
   92864, 93008, 120782, 120792, 120802, 120812, 120822, 123200, 123632,
   125264, 130032]

/-- The start of the decimal-digit run containing `c`, if any. -/

def uniDigitStart (c : Nat) : Option Nat :=
  ndStarts.find? (fun s => decide (s ≤ c) && decide (c < s + 10))

/-- Regex class `\d` with CPython's Unicode semantics: any decimal digit. -/

def uniDigit (c : Nat) : Bool :=
  (uniDigitStart c).isSome

/-- The decimal value of a digit code point (0 for non-digits; only ever
applied to matched digits). -/

def uniDigitVal (c : Nat) : Nat :=
  match uniDigitStart c with
  | some s => c - s
  | none => 0

/-- Two-digit alternatives of `%S` = `6[0-1]|[0-5]\d|\d` (leap seconds). -/

def secondTwo (a b : Nat) : Bool :=
  decide (a = 54 ∧ (b = 48 ∨ b = 49)) ||
  (decide (48 ≤ a ∧ a ≤ 53) && uniDigit b)

/-- One-digit alternative of `%S`: `\d`. -/

def secondOne (a : Nat) : Bool :=
  uniDigit a

/-- The `int()` value of a digit string (positional decimal over the
characters' digit values, most significant first). -/

def uniDigitsVal (l : List Nat) : Nat :=
  l.foldl (fun acc c => 10 * acc + uniDigitVal c) 0

/-- Specification-side description of one numeric field: the string is one
character accepted by the directive's one-digit alternatives or two
characters accepted by its two-digit alternatives, and `n` is its `int()`
value. -/

def FieldRep (v2 : Nat → Nat → Bool) (v1 : Nat → Bool)
    (l : List Nat) (n : Nat) : Prop :=
  (∃ a b, l = [a, b] ∧ v2 a b = true ∧ n = 10 * uniDigitVal a + uniDigitVal b) ∨
  (∃ a, l = [a] ∧ v1 a = true ∧ n = uniDigitVal a)

/-- A measured value as stored in the decoded entry: `{"value": v, "unit": u}`.
Parameter values are JSON numbers in the SMHI payload; the enumerated-code
fields are integers, and the claims under verification never compute with
the non-enumerated values, so numeric values are modelled as `Int`. -/

structure WeatherValue (α : Type) where
  value : α
  unit : String
deriving DecidableEq, Repr

/-- The `WeatherDataEntry` record: 19 named measurements, in the source's
field order. -/

structure WeatherDataEntry where
  msl : WeatherValue Int
  t : WeatherValue Int
  vis : WeatherValue Int
  wd : WeatherValue Int
  ws : WeatherValue Int
  r : WeatherValue Int
  tstm : WeatherValue Int
  tcc_mean : WeatherValue Int
  lcc_mean : WeatherValue Int
  mcc_mean : WeatherValue Int
  hcc_mean : WeatherValue Int
  gust : WeatherValue Int
  pmin : WeatherValue Int
  pmax : WeatherValue Int
  spp : WeatherValue Int
  pcat : WeatherValue PCAT
  pmean : WeatherValue Int
  pmedian : WeatherValue Int
  Wsymb2 : WeatherValue WeatherSymbol
deriving DecidableEq, Repr

/-- One `{name, unit, values}` record of a raw timestep's `parameters`
array. -/

structure RawParameter where
  name : String
  unit : String
  values : List Int
deriving DecidableEq, Repr

/-- The dict comprehension
`{item["name"]: {"value": item["values"][0], "unit": item["unit"]} for item in obj["parameters"]}`:
builds the name-indexed lookup, raising `IndexError` if any `values` list
is empty (the whole comprehension runs before any field is projected). -/

def buildDataDictAux (acc : List (String × WeatherValue Int)) :
    List RawParameter → Except WError (List (String × WeatherValue Int))
  | [] => .ok acc
  | p :: rest =>
    match p.values with
    | [] => .error .indexError
    | v :: _ => buildDataDictAux (dictInsert acc p.name ⟨v, p.unit⟩) rest

/-- The forecast store (`SMHIHelper.__init__`): coordinates and the
timestamp-indexed mapping.  Python floats carry no arithmetic here, so the
coordinates are modelled as exact rationals. -/

structure SMHIHelper where
  lon : Rat
  lat : Rat
  hourly_forecasts : List (PyDateTime × WeatherDataEntry)
deriving DecidableEq

/-- `SMHIHelper.get_timestamps`: `sorted(self.hourly_forecasts.keys())`. -/

def SMHIHelper.get_timestamps (s : SMHIHelper) : List PyDateTime :=
  List.insertionSort dtle (s.hourly_forecasts.map Prod.fst)

/-- `itertools.groupby(..., key=lambda x: x.date())`: maximal runs of
consecutive timestamps sharing a calendar date, with each run
materialized by `list(group)`. -/

def groupRuns : List PyDateTime → List (PyDate × List PyDateTime)
  | [] => []
  | x :: xs =>
    match groupRuns xs with
    | [] => [(x.date, [x])]
    | (d, g) :: rest =>
      if x.date = d then (d, x :: g) :: rest
      else (x.date, [x]) :: (d, g) :: rest

/-- `SMHIHelper.get_dates` (`weather.py` lines 222–228): the dict
comprehension over `groupby(self.get_timestamps(), key=...date())`. -/

def SMHIHelper.get_dates (s : SMHIHelper) : List (PyDate × List PyDateTime) :=
  (groupRuns s.get_timestamps).foldl (fun m kg => dictInsert m kg.1 kg.2) []

/-- Python `min(xs)` over a nonempty list: the first element that is
strictly smaller than everything before it wins. -/

def pyMinFold (x : PyDateTime) (xs : List PyDateTime) : PyDateTime :=
  xs.foldl (fun acc y => if dtlt y acc then y else acc) x

/-- `SMHIHelper.get_current_weather` (`weather.py` lines 230–232):
`min(self.get_timestamps())` raises `ValueError` on an empty sequence
(`emptyStore`), then the mapping is subscripted at that timestamp. -/

def SMHIHelper.get_current_weather (s : SMHIHelper) :
    Except WError (PyDateTime × WeatherDataEntry) :=
  match s.get_timestamps with
  | [] => .error .emptyStore
  | x :: xs =>
    match dictGet s.hourly_forecasts (pyMinFold x xs) with
    | some e => .ok (pyMinFold x xs, e)
    | none => .error .keyError

/-- The dict comprehension of `get_hourly_forecasts_for_date`:
`{dt: self.hourly_forecasts[dt] for dt in group}`; subscripting raises
`KeyError` for an absent key. -/

def lookupEntries (m : List (PyDateTime × WeatherDataEntry)) :
    List PyDateTime → Except WError (List (PyDateTime × WeatherDataEntry))
  | [] => .ok []
  | tm :: ts =>
    match dictGet m tm with
    | none => .error .keyError
    | some e => (lookupEntries m ts).bind fun l => .ok ((tm, e) :: l)

/-- `SMHIHelper.get_hourly_forecasts_for_date` (`weather.py` lines
234–240): `self.get_dates()[date]` raises `KeyError` when the date has no
group, then each timestamp of the group is looked up. -/

def SMHIHelper.get_hourly_forecasts_for_date (s : SMHIHelper) (d : PyDate) :
    Except WError (List (PyDateTime × WeatherDataEntry)) :=
  match dictGet s.get_dates d with
  | none => .error .keyError
  | some g => lookupEntries s.hourly_forecasts g

/-- State-passing form of `get_timestamps`: the method body reads
`self.hourly_forecasts` but contains no assignment to any attribute of
`self`, so the post-call store is the input store. -/

def SMHIHelper.get_timestamps_run (s : SMHIHelper) :
    List PyDateTime × SMHIHelper :=
  (s.get_timestamps, s)

/-- State-passing form of `get_dates` (read-only method body). -/

def SMHIHelper.get_dates_run (s : SMHIHelper) :
    List (PyDate × List PyDateTime) × SMHIHelper :=
  (s.get_dates, s)

/-- State-passing form of `get_current_weather` (read-only method body;
the result carries the raised error when the store is empty). -/

def SMHIHelper.get_current_weather_run (s : SMHIHelper) :
    Except WError (PyDateTime × WeatherDataEntry) × SMHIHelper :=
  (s.get_current_weather, s)

/-- State-passing form of `get_hourly_forecasts_for_date` (read-only
method body). -/

def SMHIHelper.get_hourly_forecasts_for_date_run (s : SMHIHelper) (d : PyDate) :
    Except WError (List (PyDateTime × WeatherDataEntry)) × SMHIHelper :=
  (s.get_hourly_forecasts_for_date d, s)

/-- The entry `goodTS` decodes to. -/

def goodEntry : WeatherDataEntry :=
  { msl := ⟨1013, "hPa"⟩, t := ⟨15, "Cel"⟩, vis := ⟨10, "km"⟩,
    wd := ⟨180, "degree"⟩, ws := ⟨5, "m/s"⟩, r := ⟨80, "percent"⟩,
    tstm := ⟨0, "percent"⟩, tcc_mean := ⟨4, "octas"⟩,
    lcc_mean := ⟨2, "octas"⟩, mcc_mean := ⟨3, "octas"⟩,
    hcc_mean := ⟨1, "octas"⟩, gust := ⟨8, "m/s"⟩, pmin := ⟨0, "mm/h"⟩,
    pmax := ⟨1, "mm/h"⟩, spp := ⟨-9, "percent"⟩,
    pcat := ⟨.NO_PRECIPITATION, "category"⟩, pmean := ⟨0, "mm/h"⟩,
    pmedian := ⟨0, "mm/h"⟩, Wsymb2 := ⟨.VARIABLE_CLOUDINESS, "category"⟩ }

/-- The timestamp `goodTS` carries. -/

def goodTime : PyDateTime :=
  ⟨2024, 3, 1, 12, 0, 0⟩

/-- A pre-existing stored timestamp (2024-02-29) used in the fetch
witnesses; it does not occur in the test payloads. -/

def oldTime : PyDateTime := ⟨2024, 2, 29, 12, 0, 0⟩

/-- A store with two timesteps on 2024-03-01 and one on 2024-03-02, used
as witness input for the date-grouping claims. -/

def stores8 : SMHIHelper :=
  ⟨15, 58, [(goodTime, goodEntry), (⟨2024, 3, 2, 6, 0, 0⟩, goodEntry),
            (⟨2024, 3, 1, 6, 0, 0⟩, goodEntry)]⟩

theorem dtle_refl (a : PyDateTime) : dtle a a := by
  unfold dtle; omega

theorem dtle_trans {a b c : PyDateTime} (h1 : dtle a b) (h2 : dtle b c) : dtle a c := by
  unfold dtle at *; omega

theorem dtle_total (a b : PyDateTime) : dtle a b ∨ dtle b a := by
  unfold dtle; omega

theorem dtle_antisymm {a b : PyDateTime} (h1 : dtle a b) (h2 : dtle b a) : a = b := by
  cases a; cases b
  unfold dtle at *
  simp_all only [PyDateTime.mk.injEq]
  omega

theorem not_dtlt_iff {a b : PyDateTime} : ¬ dtlt a b ↔ dtle b a := by
  unfold dtlt dtle; omega

theorem dtle_date {a b : PyDateTime} (h : dtle a b) : dateLe a.date b.date := by
  obtain ⟨a1, a2, a3, a4, a5, a6⟩ := a
  obtain ⟨b1, b2, b3, b4, b5, b6⟩ := b
  simp only [dtle] at h
  simp only [dateLe, PyDateTime.date]
  omega

theorem dateLe_trans {a b c : PyDate} (h1 : dateLe a b) (h2 : dateLe b c) : dateLe a c := by
  unfold dateLe at *; omega

theorem dateLt_of_le_of_ne {a b : PyDate} (h1 : dateLe a b) (h2 : a ≠ b) : dateLt a b := by
  obtain ⟨a1, a2, a3⟩ := a
  obtain ⟨b1, b2, b3⟩ := b
  simp only [dateLe] at h1
  simp only [ne_eq, PyDate.mk.injEq, not_and] at h2
  simp only [dateLt]
  omega

theorem dateLt_ne {a b : PyDate} (h : dateLt a b) : a ≠ b := by
  obtain ⟨a1, a2, a3⟩ := a
  obtain ⟨b1, b2, b3⟩ := b
  simp only [dateLt] at h
  simp only [ne_eq, PyDate.mk.injEq, not_and]
  omega

theorem dateLt_trans {a b c : PyDate} (h1 : dateLt a b) (h2 : dateLt b c) : dateLt a c := by
  unfold dateLt at *; omega

theorem dateLe_of_lt {a b : PyDate} (h : dateLt a b) : dateLe a b := by
  unfold dateLt at h; unfold dateLe; omega

theorem dictGet_eq_none_iff {α β : Type} [DecidableEq α]
    (m : List (α × β)) (k : α) :
    dictGet m k = none ↔ k ∉ m.map Prod.fst := by
  induction m with
  | nil => simp [dictGet]
  | cons p rest ih =>
    obtain ⟨k0, v0⟩ := p
    rcases eq_or_ne k0 k with h | h
    · subst h; simp [dictGet]
    · simp only [dictGet, if_neg h, List.map_cons, List.mem_cons, not_or, ih]
      constructor
      · intro hk; exact ⟨Ne.symm h, hk⟩
      · intro hk; exact hk.2

theorem dictGet_isSome_of_mem {α β : Type} [DecidableEq α]
    {m : List (α × β)} {k : α} (h : k ∈ m.map Prod.fst) :
    ∃ v, dictGet m k = some v := by
  cases hg : dictGet m k with
  | some v => exact ⟨v, rfl⟩
  | none => exact absurd ((dictGet_eq_none_iff m k).mp hg) (by simp [h])

theorem dictGet_mem {α β : Type} [DecidableEq α]
    {m : List (α × β)} {k : α} {v : β} (h : dictGet m k = some v) :
    (k, v) ∈ m := by
  induction m with
  | nil => simp [dictGet] at h
  | cons p rest ih =>
    obtain ⟨k0, v0⟩ := p
    rcases eq_or_ne k0 k with h0 | h0
    · subst h0
      simp [dictGet] at h
      subst h
      exact List.mem_cons_self _ _
    · simp only [dictGet, if_neg h0] at h
      exact List.mem_cons_of_mem _ (ih h)

theorem dictInsert_of_not_mem {α β : Type} [DecidableEq α]
    {m : List (α × β)} {k : α} (v : β) (h : k ∉ m.map Prod.fst) :
    dictInsert m k v = m ++ [(k, v)] := by
  induction m with
  | nil => simp [dictInsert]
  | cons p rest ih =>
    obtain ⟨k0, v0⟩ := p
    simp only [List.map_cons, List.mem_cons, not_or] at h
    have h0 : ¬ k0 = k := fun hh => h.1 hh.symm
    simp [dictInsert, h0, ih h.2]

theorem except_ok_of_map_code {e : Except WError WeatherSymbol} {c : Int}
    (h : e.map WeatherSymbol.code = .ok c) : ∃ s, e = .ok s ∧ s.code = c := by
  cases e with
  | ok s => exact ⟨s, rfl, by simpa [Except.map] using h⟩
  | error err => simp [Except.map] at h

/-- C3: for every integer code in 1–27, `WeatherSymbol.from_code` succeeds
and returns the variant whose stored code equals the input; for every code
outside 1–27 it fails with the unknown-code error, never a default. -/
theorem C3_weather_symbol_round_trip (code : Int) :
    (1 ≤ code ∧ code ≤ 27 →
      ∃ s, WeatherSymbol.from_code code = .ok s ∧ s.code = code) ∧
    ((code < 1 ∨ 27 < code) →
      WeatherSymbol.from_code code = .error .unknownCode) := by
  constructor
  · rintro ⟨h1, h2⟩
    interval_cases code <;> exact except_ok_of_map_code rfl
  · intro h
    rw [WeatherSymbol.from_code]
    have hnone : WeatherSymbol.members.find? (fun s => s.code == code) = none := by
      rw [List.find?_eq_none]
      intro s hs
      fin_cases hs <;> simp [WeatherSymbol.code] <;> omega
    rw [hnone]

/-- Witness for C3 at codes 7 (in range) and 99 (out of range). -/
theorem C3_weather_symbol_round_trip_witness :
    (∃ s, WeatherSymbol.from_code 7 = .ok s ∧ s.code = 7) ∧
    WeatherSymbol.from_code 99 = .error .unknownCode :=
  ⟨(C3_weather_symbol_round_trip 7).1 (by decide),
   (C3_weather_symbol_round_trip 99).2 (by decide)⟩

/-- C7: `PCAT` lookup returns the matching variant for every code 0–6
(0 none, 1 snow, 2 snow+rain, 3 rain, 4 drizzle, 5 freezing rain,
6 freezing drizzle) and fails with the unknown-code error outside 0–6. -/
theorem C7_pcat_decode (v : Int) :
    (PCAT.fromValue 0 = .ok .NO_PRECIPITATION ∧
     PCAT.fromValue 1 = .ok .SNOW ∧
     PCAT.fromValue 2 = .ok .SNOW_AND_RAIN ∧
     PCAT.fromValue 3 = .ok .RAIN ∧
     PCAT.fromValue 4 = .ok .DRIZZLE ∧
     PCAT.fromValue 5 = .ok .FREEZING_RAIN ∧
     PCAT.fromValue 6 = .ok .FREEZING_DRIZZLE) ∧
    ((v < 0 ∨ 6 < v) → PCAT.fromValue v = .error .unknownCode) := by
  constructor
  · exact ⟨rfl, rfl, rfl, rfl, rfl, rfl, rfl⟩
  · intro h
    rw [PCAT.fromValue]
    have hnone : PCAT.members.find? (fun p => p.val == v) = none := by
      rw [List.find?_eq_none]
      intro p hp
      fin_cases hp <;> simp [PCAT.val] <;> omega
    rw [hnone]

/-- Witness for C7 at value 7 (out of range). -/
theorem C7_pcat_decode_witness :
    PCAT.fromValue 7 = .error .unknownCode :=
  (C7_pcat_decode 7).2 (by decide)

theorem uniDigit_ascii (c : Nat) (h1 : 48 ≤ c) (h2 : c ≤ 57) :
    uniDigit c = true ∧ uniDigitVal c = c - 48 := by
  have hp : (fun s => decide (s ≤ c) && decide (c < s + 10)) 48 = true := by
    simp only [Bool.and_eq_true, decide_eq_true_eq]
    omega
  have hs : uniDigitStart c = some 48 := by
    unfold uniDigitStart ndStarts
    exact List.find?_cons_of_pos _ hp
  constructor
  · unfold uniDigit
    rw [hs]
    rfl
  · unfold uniDigitVal
    rw [hs]

theorem uniDigitVal_le {c : Nat} (h : uniDigit c = true) : uniDigitVal c ≤ 9 := by
  unfold uniDigit at h
  cases hs : uniDigitStart c with
  | none => rw [hs] at h; simp at h
  | some s =>
    have hfind : ndStarts.find? (fun s => decide (s ≤ c) && decide (c < s + 10)) = some s := hs
    have hp := List.find?_some hfind
    simp only [Bool.and_eq_true, decide_eq_true_eq] at hp
    unfold uniDigitVal
    rw [hs]
    dsimp only
    omega

theorem uniDigitsVal_one (a : Nat) : uniDigitsVal [a] = uniDigitVal a := by
  simp only [uniDigitsVal, List.foldl]
  omega

theorem uniDigitsVal_two (a b : Nat) :
    uniDigitsVal [a, b] = 10 * uniDigitVal a + uniDigitVal b := by
  simp only [uniDigitsVal, List.foldl]
  omega

theorem second_bounds {l : List Nat} {n : Nat}
    (h : FieldRep secondTwo secondOne l n) : n ≤ 61 := by
  rcases h with ⟨a, b, -, hv, hn⟩ | ⟨a, -, hv, hn⟩
  · subst hn
    simp only [secondTwo, Bool.or_eq_true, Bool.and_eq_true, decide_eq_true_eq] at hv
    rcases hv with hv | hv
    · have ha := (uniDigit_ascii a (by omega) (by omega)).2
      have hb := (uniDigit_ascii b (by omega) (by omega)).2
      rw [ha, hb]
      omega
    · have ha := (uniDigit_ascii a (by omega) (by omega)).2
      have hb := uniDigitVal_le hv.2
      rw [ha]
      omega
  · subst hn
    have ha := uniDigitVal_le hv
    omega

theorem buildDataDictAux_ok {ps : List RawParameter} :
    ∀ acc, (∀ p ∈ ps, p.values ≠ []) → ∃ dd, buildDataDictAux acc ps = .ok dd := by
  induction ps with
  | nil => intro acc _; exact ⟨acc, rfl⟩
  | cons p rest ih =>
    intro acc h
    cases hv : p.values with
    | nil => exact absurd hv (h p (by simp))
    | cons v vs =>
      obtain ⟨dd, hdd⟩ :=
        ih (dictInsert acc p.name ⟨v, p.unit⟩) (fun q hq => h q (by simp [hq]))
      exact ⟨dd, by simp only [buildDataDictAux, hv]; exact hdd⟩

theorem dtle_of_dtlt {a b : PyDateTime} (h : dtlt a b) : dtle a b := by
  unfold dtlt at h; unfold dtle; omega

theorem get_timestamps_sorted (s : SMHIHelper) : s.get_timestamps.Pairwise dtle :=
  List.sorted_insertionSort dtle _

theorem get_timestamps_perm (s : SMHIHelper) :
    s.get_timestamps.Perm (s.hourly_forecasts.map Prod.fst) :=
  List.perm_insertionSort dtle _

theorem mem_get_timestamps {s : SMHIHelper} {tq : PyDateTime} :
    tq ∈ s.get_timestamps ↔ tq ∈ s.hourly_forecasts.map Prod.fst :=
  (get_timestamps_perm s).mem_iff

theorem pyMinFold_mem : ∀ (xs : List PyDateTime) (x : PyDateTime),
    pyMinFold x xs ∈ x :: xs := by
  intro xs
  induction xs with
  | nil => intro x; simp [pyMinFold]
  | cons y ys ih =>
    intro x
    simp only [pyMinFold, List.foldl_cons]
    by_cases h : dtlt y x
    · rw [if_pos h]
      rcases List.mem_cons.mp (ih y) with h1 | h1
      · exact List.mem_cons_of_mem _ (List.mem_cons.mpr (Or.inl h1))
      · exact List.mem_cons_of_mem _ (List.mem_cons_of_mem _ h1)
    · rw [if_neg h]
      rcases List.mem_cons.mp (ih x) with h1 | h1
      · exact List.mem_cons.mpr (Or.inl h1)
      · exact List.mem_cons_of_mem _ (List.mem_cons_of_mem _ h1)

theorem pyMinFold_le : ∀ (xs : List PyDateTime) (x : PyDateTime),
    ∀ u ∈ x :: xs, dtle (pyMinFold x xs) u := by
  intro xs
  induction xs with
  | nil =>
    intro x u hu
    simp only [List.mem_singleton] at hu
    subst hu
    exact dtle_refl u
  | cons y ys ih =>
    intro x u hu
    simp only [pyMinFold, List.foldl_cons]
    have hz : dtle (pyMinFold (if dtlt y x then y else x) ys) (if dtlt y x then y else x) :=
      ih _ _ (List.mem_cons_self _ _)
    have hzx : dtle (if dtlt y x then y else x) x := by
      by_cases h : dtlt y x
      · rw [if_pos h]; exact dtle_of_dtlt h
      · rw [if_neg h]; exact dtle_refl x
    have hzy : dtle (if dtlt y x then y else x) y := by
      by_cases h : dtlt y x
      · rw [if_pos h]; exact dtle_refl y
      · rw [if_neg h]; exact not_dtlt_iff.mp h
    rcases List.mem_cons.mp hu with h1 | h1
    · subst h1
      exact dtle_trans hz hzx
    rcases List.mem_cons.mp h1 with h2 | h2
    · subst h2
      exact dtle_trans hz hzy
    · exact ih _ _ (List.mem_cons_of_mem _ h2)

/-- C4: `getCurrent` on an empty store fails with the empty-store error
(Python's `ValueError` from `min([])`); on a non-empty store it returns
the pair of the smallest stored timestamp and the entry stored at it. -/
theorem C4_get_current (s : SMHIHelper) :
    (s.hourly_forecasts = [] → s.get_current_weather = .error .emptyStore) ∧
    (s.hourly_forecasts ≠ [] →
      ∃ tmin e, s.get_current_weather = .ok (tmin, e) ∧
        tmin ∈ s.hourly_forecasts.map Prod.fst ∧
        (∀ u ∈ s.hourly_forecasts.map Prod.fst, dtle tmin u) ∧
        dictGet s.hourly_forecasts tmin = some e) := by
  constructor
  · intro h
    have hts : s.get_timestamps = [] := by
      unfold SMHIHelper.get_timestamps
      rw [h]
      rfl
    simp only [SMHIHelper.get_current_weather, hts]
  · intro h
    cases hts : s.get_timestamps with
    | nil =>
      have hp := get_timestamps_perm s
      rw [hts] at hp
      exact absurd (List.map_eq_nil_iff.mp hp.symm.eq_nil) h
    | cons x xs =>
      have hmem : pyMinFold x xs ∈ s.get_timestamps := by
        rw [hts]; exact pyMinFold_mem xs x
      have hmem' : pyMinFold x xs ∈ s.hourly_forecasts.map Prod.fst :=
        mem_get_timestamps.mp hmem
      obtain ⟨e, he⟩ := dictGet_isSome_of_mem hmem'
      refine ⟨pyMinFold x xs, e, ?_, hmem', ?_, he⟩
      · simp only [SMHIHelper.get_current_weather, hts, he]
      · intro u hu
        have : u ∈ x :: xs := by
          rw [← hts]; exact mem_get_timestamps.mpr hu
        exact pyMinFold_le xs x u this

/-- Witness for C4: the empty store fails; a two-entry store returns the
earlier timestamp's entry. -/
theorem C4_get_current_witness :
    SMHIHelper.get_current_weather ⟨15, 58, []⟩ = .error .emptyStore ∧
    (∃ tmin e,
      SMHIHelper.get_current_weather
        ⟨15, 58, [(goodTime, goodEntry), (oldTime, goodEntry)]⟩ = .ok (tmin, e) ∧
      tmin ∈ ([(goodTime, goodEntry), (oldTime, goodEntry)] :
        List (PyDateTime × WeatherDataEntry)).map Prod.fst ∧
      (∀ u ∈ ([(goodTime, goodEntry), (oldTime, goodEntry)] :
        List (PyDateTime × WeatherDataEntry)).map Prod.fst, dtle tmin u) ∧
      dictGet [(goodTime, goodEntry), (oldTime, goodEntry)] tmin = some e) :=
  ⟨(C4_get_current ⟨15, 58, []⟩).1 rfl,
   (C4_get_current ⟨15, 58, [(goodTime, goodEntry), (oldTime, goodEntry)]⟩).2
     (by simp)⟩

/-- C10: the four query operations are read-only — the method bodies
contain no assignment to any attribute of `self`, so in state-passing form
each returns the store it was given, whether the query succeeds or
fails. -/
theorem C10_queries_leave_store_unchanged (s : SMHIHelper) (d : PyDate) :
    s.get_timestamps_run.2 = s ∧ s.get_dates_run.2 = s ∧
    s.get_current_weather_run.2 = s ∧
    (s.get_hourly_forecasts_for_date_run d).2 = s :=
  ⟨rfl, rfl, rfl, rfl⟩

theorem groupRuns_ne_nil (x : PyDateTime) (xs : List PyDateTime) :
    groupRuns (x :: xs) ≠ [] := by
  simp only [groupRuns]
  cases hr : groupRuns xs with
  | nil => simp
  | cons p rest =>
    obtain ⟨d, g⟩ := p
    dsimp only
    split_ifs <;> simp

theorem date_mem_groupRuns_keys : ∀ {l : List PyDateTime} {tq : PyDateTime},
    tq ∈ l → tq.date ∈ (groupRuns l).map Prod.fst := by
  intro l
  induction l with
  | nil => intro tq h; simp at h
  | cons x xs ih =>
    intro tq h
    simp only [groupRuns]
    rcases List.mem_cons.mp h with h1 | h1
    · subst h1
      cases hr : groupRuns xs with
      | nil => simp
      | cons p rest =>
        obtain ⟨d, g⟩ := p
        dsimp only
        by_cases hxd : tq.date = d
        · rw [if_pos hxd]
          simp [hxd]
        · rw [if_neg hxd]
          simp
    · have hk := ih h1
      cases hr : groupRuns xs with
      | nil => rw [hr] at hk; simp at hk
      | cons p rest =>
        obtain ⟨d, g⟩ := p
        dsimp only
        rw [hr] at hk
        by_cases hxd : x.date = d
        · rw [if_pos hxd]
          simpa using hk
        · rw [if_neg hxd]
          simp only [List.map_cons, List.mem_cons]
          simp only [List.map_cons, List.mem_cons] at hk
          exact Or.inr hk

theorem groupRuns_keys_sub : ∀ {l : List PyDateTime} {d : PyDate},
    d ∈ (groupRuns l).map Prod.fst → ∃ tq ∈ l, tq.date = d := by
  intro l
  induction l with
  | nil => intro d h; simp [groupRuns] at h
  | cons x xs ih =>
    intro d h
    simp only [groupRuns] at h
    cases hr : groupRuns xs with
    | nil =>
      rw [hr] at h
      simp only [List.map_cons, List.map_nil, List.mem_singleton] at h
      exact ⟨x, by simp, h.symm⟩
    | cons p rest =>
      obtain ⟨d0, g0⟩ := p
      rw [hr] at h
      dsimp only at h
      by_cases hxd : x.date = d0
      · rw [if_pos hxd] at h
        simp only [List.map_cons, List.mem_cons] at h
        rcases h with h1 | h1
        · subst h1
          exact ⟨x, by simp, hxd⟩
        · obtain ⟨tq, htq, hdq⟩ := ih (show d ∈ (groupRuns xs).map Prod.fst by
            rw [hr]; simp only [List.map_cons, List.mem_cons]; exact Or.inr h1)
          exact ⟨tq, by simp [htq], hdq⟩
      · rw [if_neg hxd] at h
        simp only [List.map_cons, List.mem_cons] at h
        rcases h with h1 | h1
        · subst h1
          exact ⟨x, by simp, rfl⟩
        · obtain ⟨tq, htq, hdq⟩ := ih (show d ∈ (groupRuns xs).map Prod.fst by
            rw [hr]; simpa using h1)
          exact ⟨tq, by simp [htq], hdq⟩

theorem groupRuns_sorted_spec : ∀ {l : List PyDateTime}, l.Pairwise dtle →
    ((groupRuns l).map Prod.fst).Pairwise dateLt ∧
    (∀ d g, (d, g) ∈ groupRuns l →
      g = l.filter (fun tq => decide (tq.date = d))) := by
  intro l
  induction l with
  | nil =>
    intro _
    exact ⟨by simp [groupRuns], by simp [groupRuns]⟩
  | cons x xs ih =>
    intro hs
    obtain ⟨hx, hxs⟩ := List.pairwise_cons.mp hs
    obtain ⟨ihk, ihf⟩ := ih hxs
    simp only [groupRuns]
    cases hr : groupRuns xs with
    | nil =>
      have hxs0 : xs = [] := by
        cases xs with
        | nil => rfl
        | cons y ys => exact absurd hr (groupRuns_ne_nil y ys)
      subst hxs0
      refine ⟨by simp, ?_⟩
      intro d g hmem
      simp only [List.mem_singleton, Prod.mk.injEq] at hmem
      obtain ⟨hd, hg⟩ := hmem
      subst hd
      subst hg
      simp
    | cons p rest =>
      obtain ⟨d0, g0⟩ := p
      dsimp only
      rw [hr] at ihk ihf
      simp only [List.map_cons] at ihk
      obtain ⟨hd0rest, hrestpw⟩ := List.pairwise_cons.mp ihk
      obtain ⟨t0, ht0mem, ht0date⟩ :=
        groupRuns_keys_sub (show d0 ∈ (groupRuns xs).map Prod.fst by rw [hr]; simp)
      have hxled0 : dateLe x.date d0 := ht0date ▸ dtle_date (hx t0 ht0mem)
      by_cases hxd : x.date = d0
      · -- x joins the first run
        rw [if_pos hxd]
        constructor
        · simpa using ihk
        · intro d g hmem
          rcases List.mem_cons.mp hmem with hhead | htail
          · simp only [Prod.mk.injEq] at hhead
            obtain ⟨hd, hg⟩ := hhead
            have hg0 : g0 = xs.filter (fun tq => decide (tq.date = d0)) :=
              ihf d0 g0 (by simp)
            subst hd
            subst hg
            rw [List.filter_cons_of_pos (by simp [hxd]), ← hg0]
          · have hg := ihf d g (List.mem_cons_of_mem _ htail)
            have hlt : dateLt d0 d :=
              hd0rest d (List.mem_map_of_mem Prod.fst htail)
            have hdneq : ¬ x.date = d := by
              rw [hxd]
              exact dateLt_ne hlt
            rw [List.filter_cons_of_neg (by simp [hdneq]), ← hg]
      · -- x starts a new run
        rw [if_neg hxd]
        have hxltd0 : dateLt x.date d0 := dateLt_of_le_of_ne hxled0 hxd
        have hnotinxs : ∀ tq ∈ xs, tq.date ≠ x.date := by
          intro tq htq hdate
          have hk := date_mem_groupRuns_keys htq
          rw [hr] at hk
          simp only [List.map_cons, List.mem_cons] at hk
          rcases hk with h1 | h1
          · rw [hdate] at h1
            exact hxd h1
          · have hlt := hd0rest _ h1
            rw [hdate] at hlt
            exact absurd rfl (dateLt_ne (dateLt_trans hxltd0 hlt))
        constructor
        · simp only [List.map_cons]
          refine List.Pairwise.cons ?_ ihk
          intro dk hdk
          simp only [List.map_cons, List.mem_cons] at hdk
          rcases hdk with h1 | h1
          · subst h1
            exact hxltd0
          · exact dateLt_trans hxltd0 (hd0rest _ h1)
        · intro d g hmem
          rcases List.mem_cons.mp hmem with hhead | htail
          · simp only [Prod.mk.injEq] at hhead
            obtain ⟨hd, hg⟩ := hhead
            subst hd
            subst hg
            rw [List.filter_cons_of_pos (by simp)]
            have hnil : xs.filter (fun tq => decide (tq.date = x.date)) = [] := by
              rw [List.filter_eq_nil_iff]
              intro tq htq
              simp only [decide_eq_true_eq]
              exact hnotinxs tq htq
            rw [hnil]
          · have hg := ihf d g htail
            have hdneq : ¬ x.date = d := by
              rcases List.mem_cons.mp htail with h1 | h1
              · have : d = d0 := by
                  have := congrArg Prod.fst h1
                  simpa using this
                rw [this]
                exact hxd
              · have hlt := hd0rest d (List.mem_map_of_mem Prod.fst h1)
                exact dateLt_ne (dateLt_trans hxltd0 hlt)
            rw [List.filter_cons_of_neg (by simp [hdneq]), ← hg]

theorem foldl_dictInsert_eq {α β : Type} [DecidableEq α] :
    ∀ {l acc : List (α × β)}, (l.map Prod.fst).Nodup →
      (∀ k ∈ l.map Prod.fst, k ∉ acc.map Prod.fst) →
      l.foldl (fun m kg => dictInsert m kg.1 kg.2) acc = acc ++ l := by
  intro l
  induction l with
  | nil =>
    intro acc _ _
    simp
  | cons p rest ih =>
    intro acc hnd hdisj
    obtain ⟨k, v⟩ := p
    simp only [List.map_cons, List.nodup_cons] at hnd
    have hk : k ∉ acc.map Prod.fst := hdisj k (by simp)
    have hdisj2 : ∀ k' ∈ rest.map Prod.fst, k' ∉ (acc ++ [(k, v)]).map Prod.fst := by
      intro k' hk'
      simp only [List.map_append, List.mem_append, List.map_cons, List.map_nil,
        List.mem_singleton, not_or]
      constructor
      · exact hdisj k' (by simp [hk'])
      · intro hkk
        rw [hkk] at hk'
        exact hnd.1 hk'
    simp only [List.foldl_cons]
    rw [dictInsert_of_not_mem v hk, ih hnd.2 hdisj2]
    simp

theorem get_dates_eq (s : SMHIHelper) : s.get_dates = groupRuns s.get_timestamps := by
  have hpw := (groupRuns_sorted_spec (get_timestamps_sorted s)).1
  have hnd : ((groupRuns s.get_timestamps).map Prod.fst).Nodup :=
    hpw.imp (fun h => dateLt_ne h)
  unfold SMHIHelper.get_dates
  rw [foldl_dictInsert_eq hnd (by simp)]
  simp

/-- C8: `get_dates` partitions the sorted timestamp sequence by UTC
calendar date — each group is exactly the date's slice of the sorted
sequence (hence ascending, all on that date), every stored timestamp lies
in the group of its own date, and the groups are keyed in strictly
chronological date order. -/
theorem C8_group_by_date (s : SMHIHelper) :
    (∀ d g, (d, g) ∈ s.get_dates →
      g = s.get_timestamps.filter (fun tq => decide (tq.date = d)) ∧
      g.Pairwise dtle ∧ ∀ tq ∈ g, tq.date = d) ∧
    (∀ tq ∈ s.get_timestamps, ∃ g, (tq.date, g) ∈ s.get_dates ∧ tq ∈ g) ∧
    ((s.get_dates.map Prod.fst).Pairwise dateLt) := by
  have hsorted := get_timestamps_sorted s
  have hspec := groupRuns_sorted_spec hsorted
  rw [get_dates_eq]
  refine ⟨?_, ?_, hspec.1⟩
  · intro d g hmem
    have hg := hspec.2 d g hmem
    refine ⟨hg, ?_, ?_⟩
    · rw [hg]
      exact hsorted.filter _
    · intro tq htq
      rw [hg] at htq
      exact of_decide_eq_true (List.mem_filter.mp htq).2
  · intro tq htq
    have hk := date_mem_groupRuns_keys htq
    rw [List.mem_map] at hk
    obtain ⟨⟨d', g⟩, hmem, hfst⟩ := hk
    dsimp only at hfst
    subst hfst
    refine ⟨g, hmem, ?_⟩
    have hgf := hspec.2 _ g hmem
    rw [hgf]
    exact List.mem_filter.mpr ⟨htq, by simp⟩

/-- Witness for C8 on a three-timestep store spanning two dates. -/
theorem C8_group_by_date_witness :
    (([⟨2024, 3, 1, 6, 0, 0⟩, goodTime] : List PyDateTime) =
      stores8.get_timestamps.filter (fun tq => decide (tq.date = ⟨2024, 3, 1⟩)) ∧
      List.Pairwise dtle ([⟨2024, 3, 1, 6, 0, 0⟩, goodTime] : List PyDateTime) ∧
      ∀ tq ∈ ([⟨2024, 3, 1, 6, 0, 0⟩, goodTime] : List PyDateTime),
        tq.date = ⟨2024, 3, 1⟩) ∧
    (∃ g, ((⟨2024, 3, 2, 6, 0, 0⟩ : PyDateTime).date, g) ∈ stores8.get_dates ∧
      (⟨2024, 3, 2, 6, 0, 0⟩ : PyDateTime) ∈ g) :=
  ⟨(C8_group_by_date stores8).1 ⟨2024, 3, 1⟩ [⟨2024, 3, 1, 6, 0, 0⟩, goodTime]
     (by decide),
   (C8_group_by_date stores8).2.1 ⟨2024, 3, 2, 6, 0, 0⟩ (by decide)⟩

theorem lookupEntries_ok {m : List (PyDateTime × WeatherDataEntry)} :
    ∀ {g : List PyDateTime}, (∀ tq ∈ g, ∃ e, dictGet m tq = some e) →
      ∃ l, lookupEntries m g = .ok l ∧ l.map Prod.fst = g ∧
        ∀ p ∈ l, dictGet m p.1 = some p.2 := by
  intro g
  induction g with
  | nil =>
    intro _
    exact ⟨[], rfl, rfl, by simp⟩
  | cons tq ts ih =>
    intro h
    obtain ⟨e, he⟩ := h tq (by simp)
    obtain ⟨l, hl, hmap, hall⟩ := ih (fun u hu => h u (by simp [hu]))
    refine ⟨(tq, e) :: l, ?_, ?_, ?_⟩
    · simp only [lookupEntries, he, hl, Except.bind]
    · simp [hmap]
    · intro p hp
      rcases List.mem_cons.mp hp with h1 | h1
      · subst h1
        exact he
      · exact hall p h1

/-- C2 amended: when at least one stored timestamp falls on UTC date `d`,
`get_hourly_forecasts_for_date` succeeds and returns exactly the stored
entries whose timestamp falls on `d`, keyed in ascending timestamp order;
but when no stored timestamp falls on `d` (including the empty store) it
raises `KeyError` — it does not return an empty mapping. -/
theorem C2_entries_for_date (s : SMHIHelper) (d : PyDate) :
    ((∃ tq ∈ s.hourly_forecasts.map Prod.fst, tq.date = d) →
      ∃ l, s.get_hourly_forecasts_for_date d = .ok l ∧
        l.map Prod.fst = s.get_timestamps.filter (fun tq => decide (tq.date = d)) ∧
        (l.map Prod.fst).Pairwise dtle ∧
        (∀ p ∈ l, p.1.date = d ∧ dictGet s.hourly_forecasts p.1 = some p.2) ∧
        (∀ tq ∈ s.hourly_forecasts.map Prod.fst, tq.date = d → ∃ e, (tq, e) ∈ l)) ∧
    ((∀ tq ∈ s.hourly_forecasts.map Prod.fst, tq.date ≠ d) →
      s.get_hourly_forecasts_for_date d = .error .keyError) := by
  constructor
  · rintro ⟨t1, ht1, ht1d⟩
    have ht1' : t1 ∈ s.get_timestamps := mem_get_timestamps.mpr ht1
    have hk : d ∈ s.get_dates.map Prod.fst := by
      rw [get_dates_eq]
      exact ht1d ▸ date_mem_groupRuns_keys ht1'
    obtain ⟨g, hg⟩ := dictGet_isSome_of_mem hk
    have hmemrun : (d, g) ∈ s.get_dates := dictGet_mem hg
    have hspec := groupRuns_sorted_spec (get_timestamps_sorted s)
    have hgfilter : g = s.get_timestamps.filter (fun tq => decide (tq.date = d)) :=
      hspec.2 d g (by rw [← get_dates_eq]; exact hmemrun)
    have hsub : ∀ tq ∈ g, ∃ e, dictGet s.hourly_forecasts tq = some e := by
      intro tq htq
      rw [hgfilter] at htq
      exact dictGet_isSome_of_mem
        (mem_get_timestamps.mp (List.mem_of_mem_filter htq))
    obtain ⟨l, hl, hmap, hall⟩ := lookupEntries_ok hsub
    refine ⟨l, ?_, ?_, ?_, ?_, ?_⟩
    · simp only [SMHIHelper.get_hourly_forecasts_for_date, hg, hl]
    · rw [hmap, hgfilter]
    · rw [hmap, hgfilter]
      exact (get_timestamps_sorted s).filter _
    · intro p hp
      refine ⟨?_, hall p hp⟩
      have hpf : p.1 ∈ g := hmap ▸ List.mem_map_of_mem Prod.fst hp
      rw [hgfilter] at hpf
      exact of_decide_eq_true (List.mem_filter.mp hpf).2
    · intro tq htq htqd
      have htq' : tq ∈ s.get_timestamps := mem_get_timestamps.mpr htq
      have hin : tq ∈ l.map Prod.fst := by
        rw [hmap, hgfilter]
        exact List.mem_filter.mpr ⟨htq', by simp [htqd]⟩
      obtain ⟨p, hpmem, hpfst⟩ := List.mem_map.mp hin
      refine ⟨p.2, ?_⟩
      rw [← hpfst]
      exact hpmem
  · intro hnone
    have hkn : dictGet s.get_dates d = none := by
      rw [dictGet_eq_none_iff, get_dates_eq]
      intro hmemk
      obtain ⟨tq, htq, htqd⟩ := groupRuns_keys_sub hmemk
      exact hnone tq (mem_get_timestamps.mp htq) htqd
    simp only [SMHIHelper.get_hourly_forecasts_for_date, hkn]

/-- C2 counterexample: on the empty store, looking up any date raises
`KeyError` (`self.get_dates()[date]` on an empty dict) instead of
returning an empty mapping. -/
theorem C2_entries_for_date_counterexample :
    SMHIHelper.get_hourly_forecasts_for_date ⟨15, 58, []⟩ ⟨2024, 3, 1⟩ =
      .error .keyError := rfl

/-- Witness for C2 amended: a date with matching timestamps succeeds; a
date with none fails with `KeyError`. -/
theorem C2_entries_for_date_witness :
    (∃ l, stores8.get_hourly_forecasts_for_date ⟨2024, 3, 1⟩ = .ok l ∧
      l.map Prod.fst =
        stores8.get_timestamps.filter (fun tq => decide (tq.date = (⟨2024, 3, 1⟩ : PyDate))) ∧
      (l.map Prod.fst).Pairwise dtle ∧
      (∀ p ∈ l, p.1.date = (⟨2024, 3, 1⟩ : PyDate) ∧
        dictGet stores8.hourly_forecasts p.1 = some p.2) ∧
      (∀ tq ∈ stores8.hourly_forecasts.map Prod.fst,
        tq.date = (⟨2024, 3, 1⟩ : PyDate) → ∃ e, (tq, e) ∈ l)) ∧
    stores8.get_hourly_forecasts_for_date ⟨2030, 1, 1⟩ = .error .keyError :=
  ⟨(C2_entries_for_date stores8 ⟨2024, 3, 1⟩).1 (by decide),
   (C2_entries_for_date stores8 ⟨2030, 1, 1⟩).2 (by decide)⟩
